import Mathlib

/-!
Shallow embedding of the funnel-search candidate-refinement algorithm of
`bootcamp/tutorials/quickstart/funnel_search_with_matryoshka.ipynb`.

The notebook code being modelled (cell 11):

  def calculate_score(row, query_emb=None, dims=768):
      emb = F.normalize(row["embedding"][:dims], dim=-1)
      return (emb @ query_emb).item()

  def funnel_search(
      df: pd.DataFrame, query_emb, scales=[256, 512, 768], prune_ratio=0.5
  ) -> pd.DataFrame:
      for dims in scales:
          emb = torch.tensor(query_emb[:dims] / np.linalg.norm(query_emb[:dims]))
          scores = df.apply(
              functools.partial(calculate_score, query_emb=emb, dims=dims), axis=1
          )
          df["scores"] = scores
          df = df.sort_values(by="scores", ascending=False)
          df = df.head(int(prune_ratio * len(df)))
      return df

The dataframe rows come from `hits_to_dataframe` and carry a `title` column and an
`embedding` column; the `scores` column does not exist until `funnel_search` assigns it.
Floating-point numbers are modelled by real numbers (`prune_ratio` by a rational, since
only `int(prune_ratio * len(df))` is ever taken of it); Python list/array slicing
`v[:dims]` is modelled by `List.take dims`, which clamps exactly as slicing does.
-/

noncomputable section

/-- Row of the candidates dataframe built by `hits_to_dataframe`: a `title` column and an
`embedding` column, plus the `scores` column, absent (`none`) until assigned. -/
structure Entry where
  title : String
  embedding : List ℝ
  scores : Option ℝ

/-- Dot product `u @ v` of two vectors, modelling the torch `emb @ query_emb` product
(for equal-length operands; `zipWith` truncates to the shorter operand). -/
def dot (u v : List ℝ) : ℝ := (List.zipWith (fun a b => a * b) u v).sum

/-- Euclidean norm `np.linalg.norm(v)` (also the p=2 norm used by `F.normalize`). -/
def l2norm (v : List ℝ) : ℝ := Real.sqrt ((v.map fun x => x * x).sum)

/-- Default `eps` of torch `F.normalize`. -/
def eps : ℝ := 1e-12

/-- Model of torch `F.normalize(v, dim=-1)`: divide each component by the Euclidean norm
clamped below by `eps` (`v / v.norm(2, dim, keepdim=True).clamp_min(eps)`). -/
def Fnormalize (v : List ℝ) : List ℝ := v.map fun x => x / max (l2norm v) eps

/-- Model of `calculate_score(row, query_emb, dims)`:
`emb = F.normalize(row["embedding"][:dims], dim=-1); return (emb @ query_emb).item()`. -/
def calculate_score (row : Entry) (query_emb : List ℝ) (dims : ℕ) : ℝ :=
  dot (Fnormalize (row.embedding.take dims)) query_emb

/-- Model of `query_emb[:dims] / np.linalg.norm(query_emb[:dims])`, the per-round
normalized query vector.  Lean real division yields `0` on a zero norm where numpy
emits NaN components; the theorems below never rely on the zero-norm query case. -/
def normalizeQuery (query_emb : List ℝ) (dims : ℕ) : List ℝ :=
  (query_emb.take dims).map fun x => x / l2norm (query_emb.take dims)

/-- Effect of the column assignment `df["scores"] = scores` on one row:
the row keeps its `title` and `embedding` and gets the score of the current round. -/
def assignScore (query_emb : List ℝ) (dims : ℕ) (row : Entry) : Entry :=
  { row with scores := some (calculate_score row query_emb dims) }

/-- Value of the `scores` column of a row (all rows carry `some` score when it is read). -/
def scoreOf (e : Entry) : ℝ := e.scores.getD 0

/-- Comparison used by `df.sort_values(by="scores", ascending=False)`: descending scores. -/
def scoreGeRel (a b : Entry) : Prop := scoreOf b ≤ scoreOf a

instance : DecidableRel scoreGeRel := fun _ _ => Classical.dec _

instance : IsTotal Entry scoreGeRel := ⟨fun a b => le_total (scoreOf b) (scoreOf a)⟩

instance : IsTrans Entry scoreGeRel := ⟨fun _ _ _ h1 h2 => le_trans h2 h1⟩

/-- Model of `df.sort_values(by="scores", ascending=False)`.  The notebook relies on the
pandas default `kind="quicksort"`, which fixes the descending order of the scores but
leaves the relative order of equal scores implementation-defined; this model is one
determinization of that sort (a stable insertion sort). -/
def sortValuesDesc (df : List Entry) : List Entry := List.insertionSort scoreGeRel df

/-- Model of `int(prune_ratio * len(df))`: `int()` truncates toward zero, which is the
floor for the non-negative product. -/
def pruneCount (ratio : ℚ) (n : ℕ) : ℕ := (Int.floor (ratio * n)).toNat

/-- Computation performed by one iteration of the `for dims in scales` loop body on a
nonempty frame: score every row, sort by descending scores, keep the first
`int(prune_ratio * len)` rows.  On an empty incoming frame the real body does not reach
this result — pandas raises there (see `oneRoundE`, the loop-body model that carries the
error path); `oneRound` on `[]` returns `[]` and is meaningful only where the incoming
frame is nonempty or only returning executions are at issue. -/
def oneRound (df : List Entry) (query_emb : List ℝ) (dims : ℕ) (ratio : ℚ) : List Entry :=
  let emb := normalizeQuery query_emb dims
  let scored := df.map (assignScore emb dims)
  let sorted := sortValuesDesc scored
  sorted.take (pruneCount ratio sorted.length)

/-- Model of one execution of the loop body including the pandas error path: on an empty
incoming frame, `df.apply(..., axis=1)` returns an empty DataFrame rather than a Series
(the inference probe call fails and is swallowed), and the single-column assignment
`df["scores"] = scores` then raises `ValueError`; on a nonempty frame the body returns
the scored, sorted, pruned frame `oneRound`. -/
def oneRoundE (df : List Entry) (query_emb : List ℝ) (dims : ℕ) (ratio : ℚ) :
    Except String (List Entry) :=
  if df.isEmpty then Except.error "ValueError"
  else Except.ok (oneRound df query_emb dims ratio)

/-- Model of the returning executions of `funnel_search(df, query_emb, scales,
prune_ratio)`: fold the round body over `scales` and return the final frame.  The error
path — a round entered with an emptied frame, where pandas raises `ValueError` — is
modelled by `funnel_searchE`; on every execution on which the program returns, the two
agree (`funnel_searchE_ok`). -/
def funnel_search (df : List Entry) (query_emb : List ℝ) (scales : List ℕ)
    (prune_ratio : ℚ) : List Entry :=
  match scales with
  | [] => df
  | dims :: rest =>
      funnel_search (oneRound df query_emb dims prune_ratio) query_emb rest prune_ratio

/-- Model of `funnel_search` including the error path: each round runs `oneRoundE`, so a
round entered with an empty frame (the initial frame empty, or a previous round pruned
to zero rows with scales still left) raises `ValueError` out of the call; otherwise the
final frame is returned. -/
def funnel_searchE (df : List Entry) (query_emb : List ℝ) (scales : List ℕ)
    (prune_ratio : ℚ) : Except String (List Entry) :=
  match scales with
  | [] => Except.ok df
  | dims :: rest =>
      match oneRoundE df query_emb dims prune_ratio with
      | Except.error e => Except.error e
      | Except.ok df2 => funnel_searchE df2 query_emb rest prune_ratio

/-- State of the caller's dataframe object after `funnel_search` returns.  The first
loop iteration's `df["scores"] = scores` assigns a column in place on the very frame the
caller passed in; from the second iteration on, the local `df` has been rebound to the
fresh frames produced by `sort_values` (a copy) and `head`, so exactly the first round's
scores are what the caller observes, with row order, titles and embeddings untouched. -/
def funnel_search_caller_df (df : List Entry) (query_emb : List ℝ) (scales : List ℕ)
    (prune_ratio : ℚ) : List Entry :=
  match scales with
  | [] => df
  | dims :: _ => df.map (assignScore (normalizeQuery query_emb dims) dims)

/-- Columns of a row other than `scores` (used to state frame-preservation facts). -/
def stripScores (e : Entry) : String × List ℝ := (e.title, e.embedding)

/-- Modelled from the spec: "directly sorting the candidate set by full-embedding cosine
similarity to the query in descending order" — textbook cosine similarity. -/
def cosineSim (u v : List ℝ) : ℝ := dot u v / (l2norm u * l2norm v)

/-- Descending full-embedding cosine-similarity comparison against a fixed query. -/
def cosGeRel (q : List ℝ) (a b : Entry) : Prop :=
  cosineSim b.embedding q ≤ cosineSim a.embedding q

instance (q : List ℝ) : DecidableRel (cosGeRel q) := fun _ _ => Classical.dec _

/-- Modelled from the spec: the candidate set directly sorted by descending
full-embedding cosine similarity to the query. -/
def directCosineSort (df : List Entry) (q : List ℝ) : List Entry :=
  List.insertionSort (cosGeRel q) df

/-! ### Helper lemmas -/

theorem pruneCount_le {ratio : ℚ} (h : ratio ≤ 1) (n : ℕ) : pruneCount ratio n ≤ n := by
  have hmul : ratio * n ≤ (n : ℚ) :=
    mul_le_of_le_one_left (by exact_mod_cast Nat.zero_le n) h
  have hfl : Int.floor (ratio * (n : ℚ)) ≤ (n : ℤ) := by
    calc Int.floor (ratio * (n : ℚ)) ≤ Int.floor ((n : ℚ)) := Int.floor_mono hmul
    _ = (n : ℤ) := Int.floor_natCast n
  exact Int.toNat_le.mpr hfl

theorem pruneCount_one {ratio : ℚ} (h0 : 0 < ratio) (h1 : ratio < 1) :
    pruneCount ratio 1 = 0 := by
  have hc : (((1 : ℕ) : ℚ)) = 1 := Nat.cast_one
  rw [pruneCount, hc, mul_one, Int.floor_eq_zero_iff.mpr ⟨h0.le, h1⟩, Int.toNat_zero]

theorem sortValuesDesc_length (df : List Entry) : (sortValuesDesc df).length = df.length :=
  (List.perm_insertionSort scoreGeRel df).length_eq

theorem oneRound_length (df : List Entry) (q : List ℝ) (dims : ℕ) (ratio : ℚ) :
    (oneRound df q dims ratio).length = min (pruneCount ratio df.length) df.length := by
  simp [oneRound, sortValuesDesc_length]

theorem funnel_search_nil (q : List ℝ) (scales : List ℕ) (ratio : ℚ) :
    funnel_search [] q scales ratio = [] := by
  induction scales with
  | nil => rfl
  | cons dims rest ih =>
      have h0 : oneRound [] q dims ratio = [] := by
        simp [oneRound, sortValuesDesc, pruneCount]
      simp [funnel_search, h0, ih]

theorem funnel_search_length_le (df : List Entry) (q : List ℝ) (scales : List ℕ)
    {ratio : ℚ} : (funnel_search df q scales ratio).length ≤ df.length := by
  induction scales generalizing df with
  | nil => simp [funnel_search]
  | cons dims rest ih =>
      calc (funnel_search (oneRound df q dims ratio) q rest ratio).length
          ≤ (oneRound df q dims ratio).length := ih _
        _ ≤ df.length := by
            rw [oneRound_length]; exact min_le_right _ _

theorem funnel_search_singleton_empty (e : Entry) (q : List ℝ) (dims : ℕ) {ratio : ℚ}
    (h0 : 0 < ratio) (h1 : ratio < 1) : funnel_search [e] q [dims] ratio = [] := by
  have hz : (oneRound [e] q dims ratio).length = 0 := by
    rw [oneRound_length]
    simp [pruneCount_one h0 h1]
  have he : oneRound [e] q dims ratio = [] := List.length_eq_zero.mp hz
  simp [funnel_search, he]

theorem oneRound_singleton_empty (e : Entry) (q : List ℝ) (dims : ℕ) {ratio : ℚ}
    (h0 : 0 < ratio) (h1 : ratio < 1) : oneRound [e] q dims ratio = [] := by
  have hz : (oneRound [e] q dims ratio).length = 0 := by
    rw [oneRound_length]
    simp [pruneCount_one h0 h1]
  exact List.length_eq_zero.mp hz

theorem funnel_searchE_ok (df : List Entry) (q : List ℝ) (scales : List ℕ) (ratio : ℚ)
    (out : List Entry) (h : funnel_searchE df q scales ratio = Except.ok out) :
    funnel_search df q scales ratio = out := by
  induction scales generalizing df with
  | nil =>
      simp only [funnel_searchE, Except.ok.injEq] at h
      simpa [funnel_search] using h
  | cons dims rest ih =>
      by_cases hdf : df.isEmpty
      · simp [funnel_searchE, oneRoundE, hdf] at h
      · simp only [funnel_searchE, oneRoundE, hdf, Bool.false_eq_true, if_false] at h
        exact ih (oneRound df q dims ratio) h

/-! ### Claims -/

/-- C1, counterexample: the source has no minimum-retained safeguard and cannot
guarantee a nonempty result.  On a candidate set of size 1 with `prune_ratio = 1/2`,
`df.head(int(0.5 * 1))` is `df.head(0)`: with one scale the call returns the empty
frame, and with the notebook's default three scales the second round's
`df["scores"]` assignment on the emptied frame raises `ValueError` — in neither case is
the single candidate returned. -/
theorem c1_counterexample :
    funnel_searchE [⟨"t", [1, 0], none⟩] [1, 0] [2] (1/2) = Except.ok [] ∧
    funnel_searchE [⟨"t", [1, 0], none⟩] [1, 0] [256, 512, 768] (1/2)
      = Except.error "ValueError" := by
  have he2 : oneRound [⟨"t", [1, 0], none⟩] [1, 0] 2 (1/2) = [] :=
    oneRound_singleton_empty ⟨"t", [1, 0], none⟩ [1, 0] 2 (by norm_num) (by norm_num)
  have he256 : oneRound [⟨"t", [1, 0], none⟩] [1, 0] 256 (1/2) = [] :=
    oneRound_singleton_empty ⟨"t", [1, 0], none⟩ [1, 0] 256 (by norm_num) (by norm_num)
  have he2i : oneRound [⟨"t", [1, 0], none⟩] [1, 0] 2 (2⁻¹) = [] := by
    rwa [one_div] at he2
  have he256i : oneRound [⟨"t", [1, 0], none⟩] [1, 0] 256 (2⁻¹) = [] := by
    rwa [one_div] at he256
  constructor
  · simp [funnel_searchE, oneRoundE, he2, he2i]
  · simp [funnel_searchE, oneRoundE, he256, he256i]

/-- C1, amended: each round retains exactly `int(prune_ratio * size)` candidates — the
floor, with no minimum-of-one safeguard — so a candidate set of size 1 with
`prune_ratio` in (0,1) is emptied by its first round: with a single scale the call
returns the empty frame, and with two or more scales the next round's `df["scores"]`
assignment on the emptied frame raises `ValueError`; in no case is the single candidate
returned. -/
theorem c1_amended_prune_exact (df : List Entry) (q : List ℝ) (dims d2 : ℕ)
    (rs : List ℕ) (ratio : ℚ) (h0 : 0 < ratio) (h1 : ratio < 1) :
    (oneRound df q dims ratio).length = pruneCount ratio df.length ∧
    (df.length = 1 →
      funnel_searchE df q [dims] ratio = Except.ok [] ∧
      funnel_searchE df q (dims :: d2 :: rs) ratio = Except.error "ValueError") := by
  constructor
  · rw [oneRound_length]
    exact min_eq_left (pruneCount_le h1.le df.length)
  · intro hlen
    rcases List.length_eq_one.mp hlen with ⟨a, rfl⟩
    have he : oneRound [a] q dims ratio = [] := oneRound_singleton_empty a q dims h0 h1
    exact ⟨by simp [funnel_searchE, oneRoundE, he],
      by simp [funnel_searchE, oneRoundE, he]⟩

/-- C1, witness for the amended theorem at a concrete input. -/
theorem c1_witness :
    (oneRound [⟨"w", [2, 0], none⟩] [2, 0] 2 (1/2)).length = pruneCount (1/2) 1 ∧
    (([(⟨"w", [2, 0], none⟩ : Entry)].length = 1) →
      funnel_searchE [⟨"w", [2, 0], none⟩] [2, 0] [2] (1/2) = Except.ok [] ∧
      funnel_searchE [⟨"w", [2, 0], none⟩] [2, 0] [2, 5, 7] (1/2)
        = Except.error "ValueError") :=
  c1_amended_prune_exact [⟨"w", [2, 0], none⟩] [2, 0] 2 5 [7] (1/2)
    (by norm_num) (by norm_num)

/-- C2, counterexample: `funnel_search` is not pure with respect to the caller's frame.
The first iteration's `df["scores"] = scores` executes on the caller's own frame object,
so after the call the caller's frame carries a `scores` column (`some` value) where it
had none before. -/
theorem c2_counterexample :
    funnel_search_caller_df [⟨"t", [1, 0], none⟩] [1, 0] [2] (1/2) ≠
      [⟨"t", [1, 0], none⟩] := by
  simp [funnel_search_caller_df, assignScore, Entry.mk.injEq]

/-- C2, amended: the call leaves the titles, embeddings and row order of every frame it
touches unchanged — in particular the caller's frame keeps its rows in order with their
embeddings intact — but the `scores` column of the caller's frame is overwritten with the
first round's scores (and is left untouched only when `scales` is empty). -/
theorem c2_amended_frame (df : List Entry) (q : List ℝ) (scales : List ℕ) (ratio : ℚ) :
    (funnel_search_caller_df df q scales ratio).map stripScores = df.map stripScores ∧
    funnel_search_caller_df df q [] ratio = df := by
  refine ⟨?_, rfl⟩
  cases scales with
  | nil => rfl
  | cons dims rest =>
      simp only [funnel_search_caller_df, List.map_map]
      exact List.map_congr_left fun e _ => rfl

/-- C8: the surviving candidate set never grows — the final frame is no longer than the
input frame, and every single round's output is no longer than its input. -/
theorem c8_monotonic_shrink (df : List Entry) (q : List ℝ) (scales : List ℕ)
    (ratio : ℚ) (h0 : 0 < ratio) (h1 : ratio < 1) :
    (funnel_search df q scales ratio).length ≤ df.length ∧
    ∀ dims, (oneRound df q dims ratio).length ≤ df.length := by
  refine ⟨funnel_search_length_le df q scales, fun dims => ?_⟩
  rw [oneRound_length]
  exact min_le_right _ _

/-- C8, witness at a concrete input. -/
theorem c8_witness :
    (funnel_search [⟨"a", [1, 0], none⟩] [1, 0] [1, 2] (1/2)).length ≤
      [(⟨"a", [1, 0], none⟩ : Entry)].length ∧
    ∀ dims, (oneRound [⟨"a", [1, 0], none⟩] [1, 0] dims (1/2)).length ≤
      [(⟨"a", [1, 0], none⟩ : Entry)].length :=
  c8_monotonic_shrink [⟨"a", [1, 0], none⟩] [1, 0] [1, 2] (1/2)
    (by norm_num) (by norm_num)

/-- C9: the length of the returned frame is `int(prune_ratio * size)` iterated once per
element of `scales` on the input length.  It therefore depends only on the input length,
the number of scales and the prune ratio — never on the embedding or query values. -/
theorem c9_length_value_independent (df : List Entry) (q : List ℝ) (scales : List ℕ)
    (ratio : ℚ) (h0 : 0 < ratio) (h1 : ratio < 1) :
    (funnel_search df q scales ratio).length =
      (fun n => pruneCount ratio n)^[scales.length] df.length := by
  induction scales generalizing df with
  | nil => simp [funnel_search]
  | cons dims rest ih =>
      have hone : (oneRound df q dims ratio).length = pruneCount ratio df.length := by
        rw [oneRound_length]
        exact min_eq_left (pruneCount_le h1.le df.length)
      show (funnel_search (oneRound df q dims ratio) q rest ratio).length = _
      rw [ih, hone, List.length_cons, Function.iterate_succ_apply]

/-- C9, witness at a concrete input. -/
theorem c9_witness :
    (funnel_search [⟨"b", [1, 1], none⟩] [1, 1] [2] (1/2)).length =
      (fun n => pruneCount (1/2) n)^[([2] : List ℕ).length]
        [(⟨"b", [1, 1], none⟩ : Entry)].length :=
  c9_length_value_independent [⟨"b", [1, 1], none⟩] [1, 1] [2] (1/2)
    (by norm_num) (by norm_num)

/-- C3, counterexample: no dimension check exists and no error is raised.  With
`scales=[1000]` on length-768 embeddings the slices `[:1000]` silently clamp to the full
768 components and `funnel_search` completes normally, here returning the empty frame
(the sole candidate is pruned away by `int(0.5 * 1) = 0`). -/
theorem c3_counterexample :
    funnel_search [⟨"m", List.replicate 768 1, none⟩] (List.replicate 768 1)
      [1000] (1/2) = [] :=
  funnel_search_singleton_empty ⟨"m", List.replicate 768 1, none⟩
    (List.replicate 768 1) 1000 (by norm_num) (by norm_num)

/-- C3, amended: a `dims` larger than every embedding involved is silently clamped by
slicing, so the round behaves exactly as a round at the true length bound would. -/
theorem c3_amended_clamp (df : List Entry) (q : List ℝ) (ratio : ℚ) (dims D : ℕ)
    (hD : D ≤ dims) (hq : q.length ≤ D) (hdf : ∀ e ∈ df, e.embedding.length ≤ D) :
    funnel_search df q [dims] ratio = funnel_search df q [D] ratio := by
  have hqtake : q.take dims = q.take D := by
    rw [List.take_of_length_le (le_trans hq hD), List.take_of_length_le hq]
  have hscore : ∀ e ∈ df, assignScore (normalizeQuery q dims) dims e
      = assignScore (normalizeQuery q D) D e := by
    intro e he
    have hetake : e.embedding.take dims = e.embedding.take D := by
      rw [List.take_of_length_le (le_trans (hdf e he) hD),
        List.take_of_length_le (hdf e he)]
    unfold assignScore calculate_score normalizeQuery
    rw [hqtake, hetake]
  have hone : oneRound df q dims ratio = oneRound df q D ratio := by
    simp only [oneRound]
    rw [List.map_congr_left hscore]
  simp [funnel_search, hone]

/-- C3, witness for the amended theorem at a concrete input. -/
theorem c3_witness :
    funnel_search [⟨"m3", [1, 0, 0], none⟩] [1, 0, 0] [1000] (1/2) =
      funnel_search [⟨"m3", [1, 0, 0], none⟩] [1, 0, 0] [3] (1/2) :=
  c3_amended_clamp [⟨"m3", [1, 0, 0], none⟩] [1, 0, 0] (1/2) 1000 3
    (by norm_num) (by simp) (by simp)

/-- Sum of squares of an all-zero vector is zero, so its Euclidean norm is zero. -/
theorem l2norm_eq_zero_of (v : List ℝ) (h : ∀ x ∈ v, x = 0) : l2norm v = 0 := by
  have hs : ((v.map fun x => x * x).sum) = 0 := by
    apply List.sum_eq_zero
    intro y hy
    rcases List.mem_map.mp hy with ⟨x, hx, rfl⟩
    rw [h x hx, mul_zero]
  rw [l2norm, hs, Real.sqrt_zero]

/-- torch `F.normalize` on an all-zero vector: the norm clamps to `eps` and every
component is `0 / eps = 0`, so the vector is returned unchanged (no failure). -/
theorem Fnormalize_zero_of (v : List ℝ) (h : ∀ x ∈ v, x = 0) : Fnormalize v = v := by
  have hz : l2norm v = 0 := l2norm_eq_zero_of v h
  have hmax : max (l2norm v) eps = eps := by
    rw [hz]
    exact max_eq_right (by norm_num [eps])
  unfold Fnormalize
  rw [hmax]
  calc v.map (fun x => x / eps) = v.map id :=
        List.map_congr_left (fun x hx => by rw [h x hx]; simp)
    _ = v := List.map_id v

/-- Dot product with an all-zero left operand is zero. -/
theorem dot_eq_zero_left (u : List ℝ) (h : ∀ x ∈ u, x = 0) (w : List ℝ) :
    dot u w = 0 := by
  induction u generalizing w with
  | nil => simp [dot]
  | cons a u ih =>
      cases w with
      | nil => simp [dot]
      | cons b w =>
          have ha : a = 0 := h a (List.mem_cons_self a u)
          have hrest : ∀ x ∈ u, x = 0 := fun x hx => h x (List.mem_cons_of_mem a hx)
          have hu := ih hrest w
          simp only [dot, List.zipWith_cons_cons, List.sum_cons] at hu ⊢
          rw [ha, hu, zero_mul, add_zero]

/-- `calculate_score` on a candidate whose `dims`-long head is all zeros is total and
returns `0`. -/
theorem calculate_score_zero (e : Entry) (q : List ℝ) (dims : ℕ)
    (h : ∀ x ∈ e.embedding.take dims, x = 0) : calculate_score e q dims = 0 := by
  unfold calculate_score
  rw [Fnormalize_zero_of _ h]
  exact dot_eq_zero_left _ h q

/-- C4, amended: the normalization step never fails.  On a candidate whose `dims`-long
head is the zero vector, `F.normalize` clamps the zero norm to `eps` and returns the
zero vector unchanged, and `calculate_score` produces the score `0` (the query-side
numpy division likewise raises nothing; on a zero-norm query it emits NaN scores, a case
the remaining theorems stay away from). -/
theorem c4_amended_zero_candidate (e : Entry) (q : List ℝ) (dims : ℕ)
    (h : ∀ x ∈ e.embedding.take dims, x = 0) :
    Fnormalize (e.embedding.take dims) = e.embedding.take dims ∧
    calculate_score e q dims = 0 :=
  ⟨Fnormalize_zero_of _ h, calculate_score_zero e q dims h⟩

/-- C4, witness for the amended theorem at a concrete input. -/
theorem c4_witness :
    Fnormalize ((⟨"z2", [0, 0, 0], none⟩ : Entry).embedding.take 2) =
      (⟨"z2", [0, 0, 0], none⟩ : Entry).embedding.take 2 ∧
    calculate_score ⟨"z2", [0, 0, 0], none⟩ [1, 0] 2 = 0 :=
  c4_amended_zero_candidate ⟨"z2", [0, 0, 0], none⟩ [1, 0] 2
    (by intro x hx; simpa using hx)

/-- C4, counterexample: on a candidate whose scored head is the zero vector the code
produces the score `0` instead of failing with any error. -/
theorem c4_counterexample :
    calculate_score ⟨"z", [0, 0], none⟩ [1, 0] 2 = 0 :=
  calculate_score_zero ⟨"z", [0, 0], none⟩ [1, 0] 2 (by intro x hx; simpa using hx)

/-- C10: a candidate whose `dims`-long head is the zero vector gets the score `0` from
`calculate_score` — the `eps` clamp inside `F.normalize` prevents any division by zero,
so no exception and no NaN arises on the candidate side. -/
theorem c10_zero_head_scores_zero (e : Entry) (q : List ℝ) (dims : ℕ)
    (h : ∀ x ∈ e.embedding.take dims, x = 0) : calculate_score e q dims = 0 :=
  calculate_score_zero e q dims h

/-- C10, witness at a concrete input. -/
theorem c10_witness : calculate_score ⟨"w", [0, 0, 0], none⟩ [1, 1, 1] 3 = 0 :=
  c10_zero_head_scores_zero ⟨"w", [0, 0, 0], none⟩ [1, 1, 1] 3
    (by intro x hx; simpa using hx)

/-- Every round's output is sorted by descending `scores`: it is a `take` of the
insertion-sorted scored frame. -/
theorem oneRound_sorted (df : List Entry) (q : List ℝ) (dims : ℕ) (ratio : ℚ) :
    List.Pairwise scoreGeRel (oneRound df q dims ratio) := by
  simp only [oneRound, sortValuesDesc]
  exact List.Pairwise.sublist (List.take_sublist _ _)
    (List.sorted_insertionSort scoreGeRel _)

/-- Every row surviving a round carries exactly that round's score of its own embedding. -/
theorem oneRound_scores (df : List Entry) (q : List ℝ) (dims : ℕ) (ratio : ℚ) :
    ∀ e ∈ oneRound df q dims ratio,
      e.scores = some (calculate_score e (normalizeQuery q dims) dims) := by
  intro e he
  simp only [oneRound, sortValuesDesc] at he
  have he2 := List.take_subset _ _ he
  rw [List.mem_insertionSort] at he2
  rcases List.mem_map.mp he2 with ⟨a, _, rfl⟩
  rfl

/-- C6: after the final scale has been processed the returned rows are ordered by
descending score, and every returned row's `scores` value is the final round's score —
the dot product of the `F`-normalized `dims`-head of its embedding with the normalized
`dims`-head of the query at the last element of `scales` — all earlier rounds' scores
having been overwritten. -/
theorem c6_final_round_order (df : List Entry) (q : List ℝ) (scales : List ℕ)
    (ratio : ℚ) (dlast : ℕ) (h : scales.getLast? = some dlast) :
    List.Pairwise scoreGeRel (funnel_search df q scales ratio) ∧
    ∀ e ∈ funnel_search df q scales ratio,
      e.scores = some (calculate_score e (normalizeQuery q dlast) dlast) := by
  induction scales generalizing df with
  | nil => simp at h
  | cons dims rest ih =>
      have hstep : funnel_search df q (dims :: rest) ratio
          = funnel_search (oneRound df q dims ratio) q rest ratio := rfl
      cases rest with
      | nil =>
          have hd : dims = dlast := by simpa using h
          subst hd
          rw [hstep]
          exact ⟨oneRound_sorted df q dims ratio, oneRound_scores df q dims ratio⟩
      | cons d2 rs =>
          rw [hstep]
          have h2 : (d2 :: rs).getLast? = some dlast := by
            rwa [List.getLast?_cons_cons] at h
          exact ih (oneRound df q dims ratio) h2

/-- C6, witness at a concrete input. -/
theorem c6_witness :
    List.Pairwise scoreGeRel (funnel_search [⟨"c", [1, 2], none⟩] [1, 2] [2] (1/2)) ∧
    ∀ e ∈ funnel_search [⟨"c", [1, 2], none⟩] [1, 2] [2] (1/2),
      e.scores = some (calculate_score e (normalizeQuery [1, 2] 2) 2) :=
  c6_final_round_order [⟨"c", [1, 2], none⟩] [1, 2] [2] (1/2) 2 rfl

/-- Dot product of two componentwise-divided vectors pulls the divisors out. -/
theorem dot_map_div (u : List ℝ) (v : List ℝ) (a b : ℝ) :
    dot (u.map fun x => x / a) (v.map fun x => x / b) = dot u v / (a * b) := by
  induction u generalizing v with
  | nil => simp [dot]
  | cons x u ih =>
      cases v with
      | nil => simp [dot]
      | cons y v =>
          have hu := ih v
          simp only [dot, List.map_cons, List.zipWith_cons_cons, List.sum_cons] at hu ⊢
          rw [hu, div_mul_div_comm, add_div]

/-- When the scored head is the whole embedding and the norms are genuine (at least
`eps` on the candidate side), the round's score is exactly the full-embedding cosine
similarity. -/
theorem calculate_score_eq_cosineSim (e : Entry) (q : List ℝ) (D : ℕ)
    (he : e.embedding.length ≤ D) (heps : eps ≤ l2norm e.embedding)
    (hq : q.length ≤ D) :
    calculate_score e (normalizeQuery q D) D = cosineSim e.embedding q := by
  have ht : e.embedding.take D = e.embedding := List.take_of_length_le he
  have hqt : q.take D = q := List.take_of_length_le hq
  unfold calculate_score Fnormalize normalizeQuery cosineSim
  rw [ht, hqt, max_eq_left heps, dot_map_div]

/-- C7, amended: provided every candidate's embedding norm is at least `F.normalize`'s
`eps = 1e-12` and the query norm is nonzero, one round at the full embedding length
ranks the candidates exactly as a direct descending sort by full-embedding cosine
similarity does — the returned frame is the `int(prune_ratio * n)`-long head of that
directly sorted candidate list.  Without the norm proviso the equivalence fails
(`c7_counterexample`): a sub-`eps`-norm candidate is scored `dot/eps` instead of its
cosine and can be ranked differently from the direct cosine sort. -/
theorem c7_single_round_equiv (df : List Entry) (q : List ℝ) (ratio : ℚ) (D : ℕ)
    (hq : q.length = D) (hqn : l2norm q ≠ 0)
    (hdf : ∀ e ∈ df, e.embedding.length = D ∧ eps ≤ l2norm e.embedding) :
    (funnel_search df q [D] ratio).map stripScores =
      ((directCosineSort df q).map stripScores).take (pruneCount ratio df.length) := by
  have hmap : ∀ a ∈ df, ∀ b ∈ df,
      cosGeRel q a b ↔ scoreGeRel (assignScore (normalizeQuery q D) D a)
        (assignScore (normalizeQuery q D) D b) := by
    intro a ha b hb
    have hsa : scoreOf (assignScore (normalizeQuery q D) D a) = cosineSim a.embedding q :=
      calculate_score_eq_cosineSim a q D (hdf a ha).1.le (hdf a ha).2 hq.le
    have hsb : scoreOf (assignScore (normalizeQuery q D) D b) = cosineSim b.embedding q :=
      calculate_score_eq_cosineSim b q D (hdf b hb).1.le (hdf b hb).2 hq.le
    unfold cosGeRel scoreGeRel
    rw [hsa, hsb]
  have hsort : List.insertionSort scoreGeRel
        (df.map (assignScore (normalizeQuery q D) D))
      = (List.insertionSort (cosGeRel q) df).map (assignScore (normalizeQuery q D) D) :=
    (List.map_insertionSort (cosGeRel q) scoreGeRel
      (assignScore (normalizeQuery q D) D) df hmap).symm
  have hcomp : stripScores ∘ assignScore (normalizeQuery q D) D = stripScores := by
    funext e
    rfl
  have hfun : funnel_search df q [D] ratio = oneRound df q D ratio := rfl
  have hlen : (sortValuesDesc (df.map (assignScore (normalizeQuery q D) D))).length
      = df.length := by
    rw [sortValuesDesc_length, List.length_map]
  rw [hfun]
  show (List.take
      (pruneCount ratio
        (sortValuesDesc (df.map (assignScore (normalizeQuery q D) D))).length)
      (sortValuesDesc (df.map (assignScore (normalizeQuery q D) D)))).map stripScores = _
  rw [hlen]
  simp only [sortValuesDesc, directCosineSort]
  rw [hsort, List.map_take, List.map_map, hcomp]

/-- C7, witness at a concrete input. -/
theorem c7_witness :
    (funnel_search [⟨"p", [3, 4], none⟩] [3, 4] [2] (1/2)).map stripScores =
      ((directCosineSort [⟨"p", [3, 4], none⟩] [3, 4]).map stripScores).take
        (pruneCount (1/2) [(⟨"p", [3, 4], none⟩ : Entry)].length) := by
  have h25 : (([3, 4] : List ℝ).map fun x => x * x).sum = 25 := by
    norm_num
  have hpos : l2norm [3, 4] ≠ 0 := by
    rw [l2norm, h25]
    positivity
  have heps : eps ≤ l2norm [3, 4] := by
    rw [l2norm, h25]
    calc eps ≤ 1 := by norm_num [eps]
      _ ≤ Real.sqrt 25 := by
          rw [show (1 : ℝ) = Real.sqrt 1 from (Real.sqrt_one).symm]
          exact Real.sqrt_le_sqrt (by norm_num)
  exact c7_single_round_equiv [⟨"p", [3, 4], none⟩] [3, 4] (1/2) 2 rfl hpos
    (by
      intro e he
      rw [List.mem_singleton] at he
      subst he
      exact ⟨rfl, heps⟩)

/-- C7, counterexample: the equivalence does not cover candidates with norm below
`F.normalize`'s `eps = 1e-12`.  Against query `[1, 0]`, candidate A `[1e-15, 0]` has
full cosine similarity `1` but is scored `1e-15/1e-12 = 1e-3` by the clamped
normalization, while candidate B `[3, 4]` has cosine `3/5` and score `3/5`; so one round
at full length with `prune_ratio = 1/2` returns B, whereas the head of the direct
descending cosine sort is A — the two orderings disagree. -/
theorem c7_counterexample :
    (funnel_search [⟨"A", [1e-15, 0], none⟩, ⟨"B", [3, 4], none⟩] [1, 0] [2]
        (1/2)).map stripScores = [("B", [3, 4])] ∧
    ((directCosineSort [⟨"A", [1e-15, 0], none⟩, ⟨"B", [3, 4], none⟩] [1, 0]).map
        stripScores).take (pruneCount (1/2) 2) = [("A", [1e-15, 0])] := by
  have hl2q : l2norm [1, 0] = 1 := by
    rw [l2norm, show ((([1, 0] : List ℝ).map fun x => x * x).sum) = 1 by
      norm_num [List.map_cons, List.map_nil, List.sum_cons, List.sum_nil],
      Real.sqrt_one]
  have hnA : l2norm [1e-15, 0] = 1e-15 := by
    rw [l2norm, show ((([1e-15, 0] : List ℝ).map fun x => x * x).sum) = (1e-15 : ℝ)^2 by
      norm_num [List.map_cons, List.map_nil, List.sum_cons, List.sum_nil]]
    exact Real.sqrt_sq (by norm_num)
  have hnB : l2norm [3, 4] = 5 := by
    rw [l2norm, show ((([3, 4] : List ℝ).map fun x => x * x).sum) = (5 : ℝ)^2 by
      norm_num [List.map_cons, List.map_nil, List.sum_cons, List.sum_nil]]
    exact Real.sqrt_sq (by norm_num)
  have hqn : normalizeQuery [1, 0] 2 = [1, 0] := by
    rw [normalizeQuery, show ([1, 0] : List ℝ).take 2 = [1, 0] from rfl, hl2q]
    norm_num [List.map_cons, List.map_nil]
  have hFA : Fnormalize [1e-15, 0] = [1e-15 / eps, 0] := by
    rw [Fnormalize, hnA, max_eq_right (by norm_num [eps] : (1e-15 : ℝ) ≤ eps)]
    norm_num [List.map_cons, List.map_nil]
  have hFB : Fnormalize [3, 4] = [3/5, 4/5] := by
    rw [Fnormalize, hnB, max_eq_left (by norm_num [eps] : eps ≤ (5 : ℝ))]
    norm_num [List.map_cons, List.map_nil]
  have hsA : calculate_score ⟨"A", [1e-15, 0], none⟩ (normalizeQuery [1, 0] 2) 2
      = 1e-3 := by
    rw [calculate_score, show (⟨"A", [1e-15, 0], none⟩ : Entry).embedding.take 2
        = [1e-15, 0] from rfl, hFA, hqn, dot]
    norm_num [List.zipWith_cons_cons, List.zipWith_nil_left, List.sum_cons,
      List.sum_nil, eps]
  have hsB : calculate_score ⟨"B", [3, 4], none⟩ (normalizeQuery [1, 0] 2) 2
      = 3/5 := by
    rw [calculate_score, show (⟨"B", [3, 4], none⟩ : Entry).embedding.take 2
        = [3, 4] from rfl, hFB, hqn, dot]
    norm_num [List.zipWith_cons_cons, List.zipWith_nil_left, List.sum_cons,
      List.sum_nil]
  have hp : pruneCount (1/2) 2 = 1 := by
    rw [pruneCount, show ((1 : ℚ)/2) * ((2 : ℕ) : ℚ) = 1 by norm_num, Int.floor_one]
    rfl
  have hr : ¬ scoreGeRel
      (assignScore (normalizeQuery [1, 0] 2) 2 ⟨"A", [1e-15, 0], none⟩)
      (assignScore (normalizeQuery [1, 0] 2) 2 ⟨"B", [3, 4], none⟩) := by
    unfold scoreGeRel
    rw [show scoreOf (assignScore (normalizeQuery [1, 0] 2) 2 ⟨"A", [1e-15, 0], none⟩)
        = calculate_score ⟨"A", [1e-15, 0], none⟩ (normalizeQuery [1, 0] 2) 2 from rfl,
      show scoreOf (assignScore (normalizeQuery [1, 0] 2) 2 ⟨"B", [3, 4], none⟩)
        = calculate_score ⟨"B", [3, 4], none⟩ (normalizeQuery [1, 0] 2) 2 from rfl,
      hsA, hsB]
    norm_num
  have hsort2 : List.insertionSort scoreGeRel
        [assignScore (normalizeQuery [1, 0] 2) 2 ⟨"A", [1e-15, 0], none⟩,
         assignScore (normalizeQuery [1, 0] 2) 2 ⟨"B", [3, 4], none⟩]
      = [assignScore (normalizeQuery [1, 0] 2) 2 ⟨"B", [3, 4], none⟩,
         assignScore (normalizeQuery [1, 0] 2) 2 ⟨"A", [1e-15, 0], none⟩] := by
    simp only [List.insertionSort, List.orderedInsert]
    rw [if_neg hr]
  have hone : oneRound [⟨"A", [1e-15, 0], none⟩, ⟨"B", [3, 4], none⟩] [1, 0] 2 (1/2)
      = [assignScore (normalizeQuery [1, 0] 2) 2 ⟨"B", [3, 4], none⟩] := by
    have hpi := hp
    rw [one_div] at hpi
    simp only [oneRound, sortValuesDesc, List.map_cons, List.map_nil]
    rw [hsort2]
    simp [hp, hpi]
  have hcos : cosGeRel [1, 0] ⟨"A", [1e-15, 0], none⟩ ⟨"B", [3, 4], none⟩ := by
    unfold cosGeRel
    rw [show (⟨"B", [3, 4], none⟩ : Entry).embedding = [3, 4] from rfl,
      show (⟨"A", [1e-15, 0], none⟩ : Entry).embedding = [1e-15, 0] from rfl]
    simp only [cosineSim, dot]
    rw [hnA, hnB, hl2q]
    norm_num [List.zipWith_cons_cons, List.zipWith_nil_left, List.sum_cons,
      List.sum_nil]
  have hdirect : directCosineSort
        [⟨"A", [1e-15, 0], none⟩, ⟨"B", [3, 4], none⟩] [1, 0]
      = [⟨"A", [1e-15, 0], none⟩, ⟨"B", [3, 4], none⟩] := by
    simp only [directCosineSort, List.insertionSort, List.orderedInsert]
    rw [if_pos hcos]
  constructor
  · rw [show funnel_search [⟨"A", [1e-15, 0], none⟩, ⟨"B", [3, 4], none⟩] [1, 0] [2]
        (1/2) = oneRound [⟨"A", [1e-15, 0], none⟩, ⟨"B", [3, 4], none⟩] [1, 0] 2 (1/2)
        from rfl, hone]
    rfl
  · rw [hdirect, hp]
    rfl
